import Mathlib

set_option linter.unusedSectionVars false

/-!
Shallow embedding of the hierarchical state machine runtime in
src/code/State.h (namespace hsm: Event, EventHandler, State, Hsm).

Modelling conventions:
- States are identifiers of an abstract type sigma with decidable equality;
  an environment `env : sigma -> State sigma` gives, for each state, the data
  the C++ object holds (parent pointer, handler list) together with the
  behaviour of its virtual `entry()` method, modelled as the `Option sigma`
  it returns (`DONE()` is `none`, `TRAN(s)` is `some s`).  The virtual
  `exit()` returns nothing; both calls are recorded in a trace so that
  claims about which lifecycle hooks run are statable.
- Null pointers (`(State*)0`, a null `Event*`) are `none`.
- Signals are `uint32_t` values, modelled as `Nat`; the only operation the
  engine performs on them is bitwise AND, which never overflows.
- The `List` container is an external collaborator (not part of this
  repository); per its documented contract it is an ordered, iterable
  collection: `addItem` appends at the tail, `getFirstItem` yields the head,
  iteration is front to back, `removeItem` removes by identity.  It is
  modelled by Lean `List` with append at the tail.
- The `while` loops and the parent-chain recursion of the C++ code need not
  terminate (a cyclic parent chain or a cyclic entry chain loops forever),
  so every looping function takes explicit fuel and returns `none` exactly
  when the C++ code would diverge.
- The mutex only serializes queue mutation; it has no observable effect in
  the single-consumer model and is not represented.
-/

namespace hsm

/-- Event class of State.h: a carrier of a single unsigned 32-bit signal. -/
structure Event where
  sig : Nat
deriving DecidableEq, Repr

/-- Getter of the event signal, mirrors `Event::getSig`. -/
def Event.getSig (e : Event) : Nat :=
  e.sig

/-- Setter of the event signal, mirrors `Event::setSig`. -/
def Event.setSig (e : Event) (s : Nat) : Event :=
  { e with sig := s }

/-- EventHandler of State.h: a signal mask together with the bound
transition method (a FunctionPointer on the target object), modelled as a
function from the event to the optional next state. -/
structure EventHandler (σ : Type) where
  sig : Nat
  handler : Event → Option σ

/-- Freshly constructed handler, mirrors `EventHandler::EventHandler`:
the mask is initialized to 0 and the FunctionPointer is unattached (calling
an unattached FunctionPointer returns the default value, a null pointer). -/
def EventHandler.new {σ : Type} : EventHandler σ :=
  { sig := 0, handler := fun _ => none }

/-- Mirrors `EventHandler::attach`: overwrites both the mask and the bound
method of the handler. -/
def EventHandler.attach {σ : Type} (_h : EventHandler σ) (signal : Nat)
    (f : Event → Option σ) : EventHandler σ :=
  { sig := signal, handler := f }

/-- Mirrors `EventHandler::match`: true iff the bitwise AND of the event
signal and the registered mask is non-zero. (`match` is a Lean keyword, so
the embedding names it `matches`.) -/
def EventHandler.matches {σ : Type} (h : EventHandler σ) (e : Event) : Bool :=
  if (e.getSig &&& h.sig) ≠ 0 then true else false

/-- Mirrors `EventHandler::dispatch`: invoke the bound transition method. -/
def EventHandler.dispatch {σ : Type} (h : EventHandler σ) (e : Event) : Option σ :=
  h.handler e

/-- Per-state data of the C++ `State` object: the parent pointer, the owned
handler list, and the behaviour of the virtual `entry()` method (the
optional next state it returns). -/
structure State (σ : Type) where
  parent : Option σ
  handlers : List (EventHandler σ)
  entry : Option σ

/-- Mirrors `State::attach`: construct a fresh EventHandler, bind it, and
append it at the end of the handler list (`List::addItem`). -/
def State.attach {σ : Type} (st : State σ) (signal : Nat)
    (f : Event → Option σ) : State σ :=
  { st with handlers := st.handlers ++ [EventHandler.new.attach signal f] }

/-- Lifecycle hook invocations observed while the engine runs. -/
inductive Action (σ : Type) where
  | entry (s : σ)
  | exit (s : σ)
deriving DecidableEq, Repr

/-- Trace of lifecycle hook invocations, in call order. -/
abbrev Trace (σ : Type) := List (Action σ)

variable {σ : Type} [DecidableEq σ]

/-- Settling loop shared by `State::dispatch` (null-event branch) and
`Hsm::dispatchEvents`:

  while(next && next != st){ st->exit(); st = next; next = st->entry(); }
  return st;

Fuel bounds the number of iterations; `none` models divergence.  The trace
records the `exit`/`entry` calls the loop makes, in order. -/
def settleLoop (env : σ → State σ) : Nat → σ → Option σ → Option (σ × Trace σ)
  | fuel, st, next =>
    match next with
    | none => some (st, [])
    | some nx =>
      if nx = st then some (st, [])
      else
        match fuel with
        | 0 => none
        | f + 1 =>
          (settleLoop env f nx (env nx).entry).map
            fun p => (p.1, .exit st :: .entry nx :: p.2)

/-- Mirrors `State::dispatch`.  A `none` event is the entry trigger: call
`entry()` and run the settling loop (the initial `entry` call heads the
trace).  Otherwise scan the handler list in registration order for the
first matching handler and return its result; if none matches, delegate to
the parent if present, else return the null state.  The result pairs the
returned `State*` with the trace of lifecycle calls; the outer `Option`
models divergence (fuel exhaustion). -/
def State.dispatch (env : σ → State σ) : Nat → σ → Option Event → Option (Option σ × Trace σ)
  | fuel, s, none =>
    (settleLoop env fuel s (env s).entry).map
      fun p => (some p.1, .entry s :: p.2)
  | fuel, s, some e =>
    match (env s).handlers.find? (fun h => h.matches e) with
    | some h => some (h.dispatch e, [])
    | none =>
      match (env s).parent with
      | some p =>
        match fuel with
        | 0 => none
        | f + 1 => State.dispatch env f p (some e)
      | none => some (none, [])

/-- Hsm of State.h: is-a State (its own per-state data lives in `env` at
the identifier `self`), and additionally owns the registry of attached
states, the FIFO event queue, and the active-state pointer.  The
constructor sets `_state = this`, i.e. `state = self`. -/
structure Hsm (σ : Type) where
  self : σ
  states : List σ
  events : List Event
  state : σ
deriving DecidableEq, Repr

/-- Mirrors the `Hsm` constructor: empty registry, empty queue, the active
state is the machine itself. -/
def Hsm.new (self : σ) : Hsm σ :=
  { self := self, states := [], events := [], state := self }

/-- Mirrors `Hsm::attachState`: append the state to the registry
(`List::addItem` appends at the tail). -/
def Hsm.attachState (h : Hsm σ) (st : σ) : Hsm σ :=
  { h with states := h.states ++ [st] }

/-- Mirrors `Hsm::raiseEvent`: enqueue the event at the tail of the FIFO
queue (`List::addItem` appends at the tail). -/
def Hsm.raiseEvent (h : Hsm σ) (e : Event) : Hsm σ :=
  { h with events := h.events ++ [e] }

/-- Mirrors `Hsm::init`: `next = dispatch(0); _state = next ? next : this;
return _state`.  Returns the updated machine and the lifecycle trace. -/
def Hsm.init (env : σ → State σ) (fuel : Nat) (h : Hsm σ) : Option (Hsm σ × Trace σ) :=
  match State.dispatch env fuel h.self none with
  | none => none
  | some (next, tr) =>
    some ({ h with state := next.getD h.self }, tr)

/-- Consumer loop body of `Hsm::dispatchEvents`: take the head of the
queue, dispatch it against the active state, run the settling loop updating
the active state, remove the head, repeat until the queue is empty.  Returns
the final active state, the lifecycle trace, and the list of events
dispatched, in dispatch order. -/
def dispatchLoop (env : σ → State σ) (fuel : Nat) :
    σ → List Event → Option (σ × Trace σ × List Event)
  | st, [] => some (st, [], [])
  | st, ev :: rest =>
    match State.dispatch env fuel st (some ev) with
    | none => none
    | some (next, dtr) =>
      match settleLoop env fuel st next with
      | none => none
      | some (st2, tr) =>
        match dispatchLoop env fuel st2 rest with
        | none => none
        | some (st3, tr2, evs) => some (st3, dtr ++ tr ++ tr2, ev :: evs)

/-- Mirrors `Hsm::dispatchEvents`: drain the queue with `dispatchLoop`
starting from the current active state; on return the queue is empty and
`_state` holds the settled state. -/
def Hsm.dispatchEvents (env : σ → State σ) (fuel : Nat) (h : Hsm σ) :
    Option (Hsm σ × Trace σ × List Event) :=
  match dispatchLoop env fuel h.state h.events with
  | none => none
  | some (st, tr, evs) => some ({ h with state := st, events := [] }, tr, evs)

/-- Modelled from the spec words describing the null-event branch of
`State::dispatch` (spec 4.3 step 1): invoke `entry()`; while the returned
next-state is non-null and differs from the current state, call `exit()` on
the current, advance to the next, call `entry()` on it again; stop when
`entry()` returns no-result or the same state; return the final settled
state.  Stated as its own recursion so that agreement with the code-derived
`State.dispatch` is a genuine refinement theorem. -/
def specEntryChain (env : σ → State σ) : Nat → σ → Option (σ × Trace σ)
  | fuel, s =>
    match (env s).entry with
    | none => some (s, [.entry s])
    | some t =>
      if t = s then some (s, [.entry s])
      else
        match fuel with
        | 0 => none
        | f + 1 =>
          (specEntryChain env f t).map fun p => (p.1, .entry s :: .exit s :: p.2)

/-- One step of the automatic entry-transition chain: `none` when the chain
settles at s (its `entry()` returns no-result or s itself), `some t` when
it advances to a different state t. -/
def stepOk (env : σ → State σ) (s : σ) : Option σ :=
  match (env s).entry with
  | none => none
  | some t => if t = s then none else some t

/-- State reached after at most n steps of the entry-transition chain. -/
def chainFrom (env : σ → State σ) : Nat → σ → σ
  | 0, s => s
  | n + 1, s =>
    match stepOk env s with
    | none => s
    | some t => chainFrom env n t

/-- True when following parent pointers from s reaches a parentless root
within the given number of hops (rules out cyclic parent chains, which make
the C++ delegation recurse forever). -/
def rootedWithin (env : σ → State σ) (fuel : Nat) (s : σ) : Bool :=
  match (env s).parent with
  | none => true
  | some p =>
    match fuel with
    | 0 => false
    | f + 1 => rootedWithin env f p

/-- True when no handler of s nor of any of its ancestors matches the
event, the parent chain reaching a root within the given number of hops. -/
def unmatchedChain (env : σ → State σ) (fuel : Nat) (s : σ) (e : Event) : Bool :=
  ((env s).handlers.find? (fun h => h.matches e)).isNone &&
    match (env s).parent with
    | none => true
    | some p =>
      match fuel with
      | 0 => false
      | f + 1 => unmatchedChain env f p e

/-- Witness machine for C2: the active state `true` carries two handlers,
mask 1 bound to a transition to `false` and mask 2 bound to a transition to
`true`, registered in that order. -/
def envC2 : Bool → State Bool := fun s =>
  if s then ((⟨none, [], none⟩ : State Bool).attach 1 (fun _ => some false)).attach 2
    (fun _ => some true)
  else ⟨none, [], none⟩

/-- Witness machine for C4: state `true` has no handlers and parent
`false`; state `false` has no handlers and no parent. -/
def envC4 : Bool → State Bool := fun s =>
  if s then ⟨some false, [], none⟩ else ⟨none, [], none⟩

/-- Witness machine for C6, the 3-level composite-entry chain of the spec
test: entry of state k chains to k+1 for k below 3 and settles at 3. -/
def envC6 : Nat → State Nat := fun k =>
  ⟨none, [], if k < 3 then some (k + 1) else none⟩

/-- Machine for C9: the root (identifier `false`) chains on entry into the
concrete state `true`; no state carries handlers.  Used both to refute the
unconditioned registry invariant (with an empty registry) and to witness
the amended one (with `true` attached). -/
def envC9 : Bool → State Bool := fun s =>
  if s then ⟨none, [], none⟩ else ⟨none, [], some true⟩

end hsm

/-! Theorems.  Basic unfolding lemmas first, then one theorem per claim
with its witness. -/

namespace hsm

variable {σ : Type} [DecidableEq σ]

theorem settleLoop_none (env : σ → State σ) (fuel : Nat) (st : σ) :
    settleLoop env fuel st none = some (st, []) := by
  rw [settleLoop.eq_def]

theorem settleLoop_self (env : σ → State σ) (fuel : Nat) (st : σ) :
    settleLoop env fuel st (some st) = some (st, []) := by
  rw [settleLoop.eq_def]
  simp

theorem settleLoop_zero (env : σ → State σ) (st nx : σ) (h : nx ≠ st) :
    settleLoop env 0 st (some nx) = none := by
  rw [settleLoop.eq_def]
  simp [h]

theorem settleLoop_step (env : σ → State σ) (f : Nat) (st nx : σ) (h : nx ≠ st) :
    settleLoop env (f + 1) st (some nx) =
      (settleLoop env f nx (env nx).entry).map
        fun p => (p.1, .exit st :: .entry nx :: p.2) := by
  conv_lhs => rw [settleLoop.eq_def]
  simp [h]

theorem dispatch_null (env : σ → State σ) (fuel : Nat) (s : σ) :
    State.dispatch env fuel s none =
      (settleLoop env fuel s (env s).entry).map
        fun p => (some p.1, .entry s :: p.2) := by
  rw [State.dispatch.eq_def]

theorem dispatch_found (env : σ → State σ) (fuel : Nat) (s : σ) (e : Event)
    (h : EventHandler σ)
    (hfind : (env s).handlers.find? (fun h => h.matches e) = some h) :
    State.dispatch env fuel s (some e) = some (h.dispatch e, []) := by
  rw [State.dispatch.eq_def]
  simp [hfind]

theorem dispatch_unfound_parent (env : σ → State σ) (f : Nat) (s p : σ) (e : Event)
    (hfind : (env s).handlers.find? (fun h => h.matches e) = none)
    (hp : (env s).parent = some p) :
    State.dispatch env (f + 1) s (some e) = State.dispatch env f p (some e) := by
  conv_lhs => rw [State.dispatch.eq_def]
  simp [hfind, hp]

theorem dispatch_unfound_root (env : σ → State σ) (fuel : Nat) (s : σ) (e : Event)
    (hfind : (env s).handlers.find? (fun h => h.matches e) = none)
    (hp : (env s).parent = none) :
    State.dispatch env fuel s (some e) = some (none, []) := by
  rw [State.dispatch.eq_def]
  simp [hfind, hp]

theorem matches_true_iff (h : EventHandler σ) (e : Event) :
    h.matches e = true ↔ e.getSig &&& h.sig ≠ 0 := by
  by_cases hc : e.getSig &&& h.sig ≠ 0 <;> simp [EventHandler.matches, hc]

theorem specEntryChain_eq_settleLoop (env : σ → State σ) :
    ∀ fuel s, specEntryChain env fuel s =
      (settleLoop env fuel s (env s).entry).map fun p => (p.1, .entry s :: p.2) := by
  intro fuel
  induction fuel with
  | zero =>
    intro s
    rw [specEntryChain.eq_def]
    cases h : (env s).entry with
    | none => simp [h, settleLoop_none]
    | some t =>
      by_cases ht : t = s
      · subst ht; simp [h, settleLoop_self]
      · simp [h, ht, settleLoop_zero env s t ht]
  | succ f ih =>
    intro s
    rw [specEntryChain.eq_def]
    cases h : (env s).entry with
    | none => simp [h, settleLoop_none]
    | some t =>
      by_cases ht : t = s
      · subst ht; simp [h, settleLoop_self]
      · simp [h, ht, settleLoop_step env f s t ht, ih t]
        cases settleLoop env f t (env t).entry <;> simp

/-- C1: for every state S, dispatching the null no-event sentinel invokes
`entry()` on S and then runs the chain of automatic transitions — while the
returned next state is non-null and differs from the current state it calls
`exit()` on the current state, advances, and calls `entry()` on the new
state — stopping when `entry()` returns no-result or the current state
itself, and returns the final settled state.  Formally: `State.dispatch`
with a `none` event coincides (result, lifecycle-call trace and divergence
behaviour) with the loop transcribed from the spec wording. -/
theorem dispatch_null_entry_chain (env : σ → State σ) (fuel : Nat) (s : σ) :
    State.dispatch env fuel s none =
      (specEntryChain env fuel s).map fun p => (some p.1, p.2) := by
  rw [dispatch_null, specEntryChain_eq_settleLoop]
  cases settleLoop env fuel s (env s).entry <;> simp

/-- C2: `attach` appends the new handler at the end of the handler list;
`dispatch` scans the list in registration order and invokes exactly the
first handler whose mask intersects the event signal, returning that
handler result; in particular, with exactly two handlers registered in the
order M1 then M2, both of whose masks intersect the signal, the M1 handler
is the one invoked. -/
theorem dispatch_first_handler_wins (env : σ → State σ) (fuel : Nat) (s : σ) (e : Event) :
    (∀ (st : State σ) (m : Nat) (f : Event → Option σ),
        (st.attach m f).handlers = st.handlers ++ [{ sig := m, handler := f }])
    ∧ (∀ h : EventHandler σ,
        (env s).handlers.find? (fun h => h.matches e) = some h →
        State.dispatch env fuel s (some e) = some (h.handler e, []))
    ∧ (∀ (st0 : State σ) (m1 m2 : Nat) (f1 f2 : Event → Option σ),
        st0.handlers = [] →
        env s = (st0.attach m1 f1).attach m2 f2 →
        e.getSig &&& m1 ≠ 0 → e.getSig &&& m2 ≠ 0 →
        State.dispatch env fuel s (some e) = some (f1 e, [])) := by
  refine ⟨fun st m f => rfl, fun h hfind => dispatch_found env fuel s e h hfind,
    fun st0 m1 m2 f1 f2 h0 henv hm1 _hm2 => ?_⟩
  have hh : (env s).handlers = [⟨m1, f1⟩, ⟨m2, f2⟩] := by
    rw [henv]
    simp [State.attach, EventHandler.attach, h0]
  have hm : (⟨m1, f1⟩ : EventHandler σ).matches e = true :=
    (matches_true_iff _ _).2 hm1
  have hfind : (env s).handlers.find? (fun h => h.matches e) = some ⟨m1, f1⟩ := by
    rw [hh]
    simp [List.find?, hm]
  exact dispatch_found env fuel s e ⟨m1, f1⟩ hfind

/-- Witness for C2: on an event with signal 3, intersecting both masks of
the `envC2` machine, the first-registered handler (mask 1) fires and its
result is returned. -/
theorem dispatch_first_handler_wins_witness :
    State.dispatch envC2 1 true (some ⟨3⟩) = some (some false, []) :=
  (dispatch_first_handler_wins envC2 1 true ⟨3⟩).2.2 ⟨none, [], none⟩ 1 2
    (fun _ => some false) (fun _ => some true) rfl rfl (by decide) (by decide)

/-- C3: handler matching is bitmask intersection, not equality — `matches`
returns true iff the bitwise AND of the event signal and the registered
mask is non-zero; consequently a handler whose multi-bit mask shares at
least one bit with the event signal matches it. -/
theorem matches_is_mask_intersection (h : EventHandler σ) (e : Event) :
    (h.matches e = true ↔ e.getSig &&& h.sig ≠ 0)
    ∧ (∀ k : Nat, (e.getSig).testBit k = true → (h.sig).testBit k = true →
        h.matches e = true) := by
  refine ⟨matches_true_iff h e, fun k hk1 hk2 => ?_⟩
  refine (matches_true_iff h e).2 fun hz => ?_
  have hbit : (e.getSig &&& h.sig).testBit k = true := by
    rw [Nat.testBit_land, hk1, hk2]
    rfl
  rw [hz] at hbit
  simp [Nat.zero_testBit] at hbit

/-- Witness for C3: a handler with mask 6 matches an event with signal 2
(shared bit 1), even though the mask differs from the signal. -/
theorem matches_is_mask_intersection_witness :
    (⟨6, fun _ => none⟩ : EventHandler Bool).matches ⟨2⟩ = true :=
  (matches_is_mask_intersection ⟨6, fun _ => none⟩ ⟨2⟩).2 1 (by decide) (by decide)

/-- C4: when no handler attached to S matches the event, dispatch with a
parent present returns exactly the result of recursively dispatching on the
parent (the event bubbles up, never sideways); with no parent it returns
the null no-result, silently, with no error path. -/
theorem dispatch_unmatched_delegates (env : σ → State σ) (fuel : Nat) (s : σ) (e : Event)
    (hfind : (env s).handlers.find? (fun h => h.matches e) = none) :
    (∀ p, (env s).parent = some p →
        State.dispatch env (fuel + 1) s (some e) = State.dispatch env fuel p (some e))
    ∧ ((env s).parent = none →
        State.dispatch env fuel s (some e) = some (none, [])) :=
  ⟨fun p hp => dispatch_unfound_parent env fuel s p e hfind hp,
   fun hp => dispatch_unfound_root env fuel s e hfind hp⟩

/-- Witness for C4: in the `envC4` machine, with no matching handler,
dispatch on the child equals dispatch on the parent, and dispatch at the
parentless root returns the null result. -/
theorem dispatch_unmatched_delegates_witness :
    (State.dispatch envC4 2 true (some ⟨1⟩) = State.dispatch envC4 1 false (some ⟨1⟩))
    ∧ (State.dispatch envC4 1 false (some ⟨1⟩) = some (none, [])) :=
  ⟨(dispatch_unmatched_delegates envC4 1 true ⟨1⟩ rfl).1 false rfl,
   (dispatch_unmatched_delegates envC4 1 false ⟨1⟩ rfl).2 rfl⟩

theorem dispatch_of_unmatchedChain (env : σ → State σ) :
    ∀ fuel s (e : Event), unmatchedChain env fuel s e = true →
      State.dispatch env fuel s (some e) = some (none, []) := by
  intro fuel
  induction fuel with
  | zero =>
    intro s e hu
    rw [unmatchedChain.eq_def] at hu
    cases hf : (env s).handlers.find? (fun h => h.matches e) with
    | some h => rw [hf] at hu; simp at hu
    | none =>
      rw [hf] at hu
      cases hp : (env s).parent with
      | some p => rw [hp] at hu; simp at hu
      | none => exact dispatch_unfound_root env 0 s e hf hp
  | succ f ih =>
    intro s e hu
    rw [unmatchedChain.eq_def] at hu
    cases hf : (env s).handlers.find? (fun h => h.matches e) with
    | some h => rw [hf] at hu; simp at hu
    | none =>
      rw [hf] at hu
      cases hp : (env s).parent with
      | none => exact dispatch_unfound_root env (f + 1) s e hf hp
      | some p =>
        rw [hp] at hu
        simp at hu
        rw [dispatch_unfound_parent env f s p e hf hp]
        exact ih p e hu

theorem dispatchEvents_single_unmatched (env : σ → State σ) (fuel : Nat) (h : Hsm σ)
    (e : Event) (hq : h.events = [e]) (hum : unmatchedChain env fuel h.state e = true) :
    Hsm.dispatchEvents env fuel h = some ({ h with events := [] }, [], [e]) := by
  have hd := dispatch_of_unmatchedChain env fuel h.state e hum
  simp [Hsm.dispatchEvents, hq, dispatchLoop, hd, settleLoop_none]

/-- C5: an event matched by no handler of the active state nor of any of
its ancestors has no observable effect — `dispatchEvents` consumes it,
leaves the active-state reference (and the registry) unchanged, and
invokes no `entry()` or `exit()` call (the lifecycle trace is empty). -/
theorem unmatched_event_no_effect (env : σ → State σ) (fuel : Nat) (h : Hsm σ) (e : Event)
    (hq : h.events = [e]) (hum : unmatchedChain env fuel h.state e = true) :
    Hsm.dispatchEvents env fuel h = some ({ h with events := [] }, [], [e])
    ∧ ({ h with events := ([] : List Event) } : Hsm σ).state = h.state :=
  ⟨dispatchEvents_single_unmatched env fuel h e hq hum, rfl⟩

/-- Witness for C5: a machine whose root has no handlers drains an
unmatched event with no lifecycle calls and an unchanged active state. -/
theorem unmatched_event_no_effect_witness :
    Hsm.dispatchEvents envC4 1 (Hsm.mk false [] [⟨4⟩] false) =
      some (Hsm.mk false [] [] false, [], [⟨4⟩]) :=
  (unmatched_event_no_effect envC4 1 (Hsm.mk false [] [⟨4⟩] false) ⟨4⟩ rfl (by decide)).1

theorem matches_zero_sig (h : EventHandler σ) (e : Event) (hs : e.getSig = 0) :
    h.matches e = false := by
  simp [EventHandler.matches, hs, Nat.zero_and]

theorem find?_matches_zero_sig (e : Event) (hs : e.getSig = 0)
    (l : List (EventHandler σ)) : l.find? (fun h => h.matches e) = none :=
  List.find?_eq_none.2 fun x _ => by simp [matches_zero_sig x e hs]

theorem unmatchedChain_of_zero_sig (env : σ → State σ) (e : Event) (hs : e.getSig = 0) :
    ∀ fuel s, rootedWithin env fuel s = true → unmatchedChain env fuel s e = true := by
  intro fuel
  induction fuel with
  | zero =>
    intro s hr
    rw [rootedWithin.eq_def] at hr
    cases hp : (env s).parent with
    | some p => rw [hp] at hr; simp at hr
    | none =>
      rw [unmatchedChain.eq_def]
      simp [find?_matches_zero_sig e hs, hp]
  | succ f ih =>
    intro s hr
    rw [rootedWithin.eq_def] at hr
    cases hp : (env s).parent with
    | none =>
      rw [unmatchedChain.eq_def]
      simp [find?_matches_zero_sig e hs, hp]
    | some p =>
      rw [hp] at hr
      simp at hr
      rw [unmatchedChain.eq_def]
      simp [find?_matches_zero_sig e hs, hp]
      exact ih p hr

/-- C10: an event whose signal is 0 matches no handler anywhere (bitmask
intersection with 0 is 0, and a freshly constructed handler carries mask
0), so dispatch on any state whose parent chain reaches a root returns the
null no-result, and draining such an event leaves the active state
unchanged with no lifecycle calls. -/
theorem zero_signal_event_inert (env : σ → State σ) (fuel : Nat) (s : σ) (e : Event)
    (hs : e.getSig = 0) :
    ((∀ hd : EventHandler σ, hd.matches e = false) ∧ (EventHandler.new (σ := σ)).sig = 0)
    ∧ (rootedWithin env fuel s = true →
        State.dispatch env fuel s (some e) = some (none, []))
    ∧ (∀ h : Hsm σ, h.events = [e] → rootedWithin env fuel h.state = true →
        Hsm.dispatchEvents env fuel h = some ({ h with events := [] }, [], [e])) := by
  refine ⟨⟨fun hd => matches_zero_sig hd e hs, rfl⟩, fun hr => ?_, fun h hq hr => ?_⟩
  · exact dispatch_of_unmatchedChain env fuel s e
      (unmatchedChain_of_zero_sig env e hs fuel s hr)
  · exact dispatchEvents_single_unmatched env fuel h e hq
      (unmatchedChain_of_zero_sig env e hs fuel h.state hr)

/-- Witness for C10: in the `envC2` machine (handlers with masks 1 and 2 on
the active state), a signal-0 event is dropped silently and draining it
changes nothing. -/
theorem zero_signal_event_inert_witness :
    State.dispatch envC2 1 true (some ⟨0⟩) = some (none, [])
    ∧ Hsm.dispatchEvents envC2 1 (Hsm.mk true [] [⟨0⟩] true) =
        some (Hsm.mk true [] [] true, [], [⟨0⟩]) :=
  ⟨(zero_signal_event_inert envC2 1 true ⟨0⟩ rfl).2.1 rfl,
   (zero_signal_event_inert envC2 1 true ⟨0⟩ rfl).2.2 (Hsm.mk true [] [⟨0⟩] true) rfl rfl⟩

theorem stepOk_some (env : σ → State σ) (s u : σ) (h : stepOk env s = some u) :
    (env s).entry = some u ∧ u ≠ s := by
  unfold stepOk at h
  split at h
  · exact absurd h (by simp)
  · rename_i v hv
    by_cases hvs : v = s
    · rw [if_pos hvs] at h; exact absurd h (by simp)
    · rw [if_neg hvs] at h
      obtain rfl : v = u := Option.some.inj h
      exact ⟨hv, hvs⟩

theorem stepOk_none_entry (env : σ → State σ) (s : σ) (h : stepOk env s = none) :
    (env s).entry = none ∨ (env s).entry = some s := by
  unfold stepOk at h
  split at h
  · rename_i hv; exact Or.inl hv
  · rename_i v hv
    by_cases hvs : v = s
    · subst hvs; exact Or.inr hv
    · rw [if_neg hvs] at h; exact absurd h (by simp)

theorem chainFrom_stable (env : σ → State σ) (s : σ) (h : stepOk env s = none) :
    ∀ n, chainFrom env n s = s := by
  intro n
  cases n with
  | zero => rfl
  | succ m => simp [chainFrom, h]

theorem settleLoop_settled (env : σ → State σ) (fuel : Nat) (st t : σ)
    (hs : stepOk env t = none) (hf : 0 < fuel) (hne : t ≠ st) :
    ∃ tr, settleLoop env fuel st (some t) = some (t, tr) := by
  obtain ⟨f, rfl⟩ : ∃ f, fuel = f + 1 := ⟨fuel - 1, by omega⟩
  rw [settleLoop_step env f st t hne]
  rcases stepOk_none_entry env t hs with he | he
  · rw [he, settleLoop_none]; exact ⟨_, rfl⟩
  · rw [he, settleLoop_self]; exact ⟨_, rfl⟩

theorem settleLoop_stops (env : σ → State σ) :
    ∀ n fuel st t, stepOk env (chainFrom env n t) = none → n < fuel → t ≠ st →
      ∃ tr, settleLoop env fuel st (some t) = some (chainFrom env n t, tr) := by
  intro n
  induction n with
  | zero =>
    intro fuel st t hstop hf hne
    exact settleLoop_settled env fuel st t hstop hf hne
  | succ m ih =>
    intro fuel st t hstop hf hne
    cases hs : stepOk env t with
    | none =>
      have hc : chainFrom env (m + 1) t = t := chainFrom_stable env t hs (m + 1)
      rw [hc] at hstop ⊢
      exact settleLoop_settled env fuel st t hstop (by omega) hne
    | some u =>
      have hc : chainFrom env (m + 1) t = chainFrom env m u := by simp [chainFrom, hs]
      rw [hc] at hstop ⊢
      obtain ⟨he, hut⟩ := stepOk_some env t u hs
      obtain ⟨f, rfl⟩ : ∃ f, fuel = f + 1 := ⟨fuel - 1, by omega⟩
      rw [settleLoop_step env f st t hne, he]
      obtain ⟨tr, htr⟩ := ih f t u hstop (by omega) hut
      rw [htr]
      exact ⟨_, rfl⟩

/-- C6: settling terminates.  If the chain of entry-triggered transitions
from s reaches, within n steps, a state whose `entry()` returns no-result
or the state itself, then with fuel above n both settling loops stop
rather than diverge: the entry chain inside `dispatch` returns the settled
state `chainFrom env n s`, and the exit/entry loop inside `dispatchEvents`
(modelled by `settleLoop`, here entered with requested next state s from
any active state st) returns a settled state. -/
theorem settling_terminates (env : σ → State σ) (n fuel : Nat) (s st : σ)
    (hstop : stepOk env (chainFrom env n s) = none) (hfuel : n < fuel) :
    (∃ tr, State.dispatch env fuel s none = some (some (chainFrom env n s), tr))
    ∧ (∃ r tr, settleLoop env fuel st (some s) = some (r, tr)) := by
  constructor
  · rw [dispatch_null]
    cases hs : stepOk env s with
    | none =>
      have hc : chainFrom env n s = s := chainFrom_stable env s hs n
      rw [hc]
      rcases stepOk_none_entry env s hs with he | he
      · rw [he, settleLoop_none]; exact ⟨_, rfl⟩
      · rw [he, settleLoop_self]; exact ⟨_, rfl⟩
    | some u =>
      cases n with
      | zero =>
        have hstop0 : stepOk env s = none := hstop
        rw [hstop0] at hs
        exact absurd hs (by simp)
      | succ m =>
        have hc : chainFrom env (m + 1) s = chainFrom env m u := by simp [chainFrom, hs]
        rw [hc] at hstop ⊢
        obtain ⟨he, hus⟩ := stepOk_some env s u hs
        obtain ⟨tr, htr⟩ := settleLoop_stops env m fuel s u hstop (by omega) hus
        rw [he, htr]
        exact ⟨_, rfl⟩
  · by_cases hss : s = st
    · subst hss; rw [settleLoop_self]; exact ⟨_, _, rfl⟩
    · obtain ⟨tr, htr⟩ := settleLoop_stops env n fuel st s hstop hfuel hss
      exact ⟨_, _, htr⟩

/-- Witness for C6: the 3-level entry chain 0 to 1 to 2 to 3 of `envC6`
settles at state 3 with fuel 4, from the entry trigger and from the
dispatchEvents settling loop alike. -/
theorem settling_terminates_witness :
    (∃ tr, State.dispatch envC6 4 0 none = some (some (chainFrom envC6 3 0), tr))
    ∧ (∃ r tr, settleLoop envC6 4 7 (some 0) = some (r, tr)) :=
  settling_terminates envC6 3 4 0 7 (by decide) (by decide)

theorem dispatchLoop_processed (env : σ → State σ) (fuel : Nat) :
    ∀ q st r, dispatchLoop env fuel st q = some r → r.2.2 = q := by
  intro q
  induction q with
  | nil =>
    intro st r h
    simp only [dispatchLoop] at h
    obtain ⟨st', tr, evs⟩ := r
    simp at h
    exact h.2.2.symm ▸ rfl
  | cons ev rest ih =>
    intro st r h
    obtain ⟨st', tr, evs⟩ := r
    simp only [dispatchLoop] at h
    split at h
    · exact absurd h (by simp)
    · rename_i next dtr hd
      split at h
      · exact absurd h (by simp)
      · rename_i st2 tr1 hsl
        split at h
        · exact absurd h (by simp)
        · rename_i st3 tr2 evs2 hdl
          have hr := ih st2 (st3, tr2, evs2) hdl
          simp at hr
          simp at h
          rw [← h.2.2, hr]

theorem raiseEvent_foldl (h : Hsm σ) (es : List Event) :
    (es.foldl Hsm.raiseEvent h).events = h.events ++ es := by
  induction es generalizing h with
  | nil => simp
  | cons e rest ih =>
    simp only [List.foldl]
    rw [ih (h.raiseEvent e)]
    simp [Hsm.raiseEvent]

/-- C7: FIFO order.  `raiseEvent` appends at the tail of the queue (also
for a whole sequence of raises), and `dispatchEvents` dispatches the queued
events in exactly the queue order, head first. -/
theorem fifo_event_order (env : σ → State σ) (fuel : Nat) (h : Hsm σ) (e : Event)
    (es : List Event) :
    ((h.raiseEvent e).events = h.events ++ [e])
    ∧ ((es.foldl Hsm.raiseEvent h).events = h.events ++ es)
    ∧ (∀ h' tr evs, Hsm.dispatchEvents env fuel h = some (h', tr, evs) →
        evs = h.events) := by
  refine ⟨rfl, raiseEvent_foldl h es, fun h' tr evs hde => ?_⟩
  unfold Hsm.dispatchEvents at hde
  cases hdl : dispatchLoop env fuel h.state h.events with
  | none => rw [hdl] at hde; exact absurd hde (by simp)
  | some pr =>
    obtain ⟨st2, tr2, evs2⟩ := pr
    rw [hdl] at hde
    have hp := dispatchLoop_processed env fuel h.events h.state (st2, tr2, evs2) hdl
    simp at hp hde
    rw [← hde.2.2, hp]

/-- Witness for C7: two events raised in order 1 then 2 sit in the queue in
that order and are dispatched in that order. -/
theorem fifo_event_order_witness :
    (((Hsm.new false).raiseEvent ⟨1⟩).events = [⟨1⟩])
    ∧ ([Event.mk 1, Event.mk 2] = (Hsm.mk false [] [⟨1⟩, ⟨2⟩] false).events) := by
  refine ⟨(fifo_event_order envC4 1 (Hsm.new false) ⟨1⟩ []).1, ?_⟩
  exact (fifo_event_order envC4 1 (Hsm.mk false [] [⟨1⟩, ⟨2⟩] false) ⟨1⟩ []).2.2
    (Hsm.mk false [] [] false) [] [⟨1⟩, ⟨2⟩] (by decide)

/-- C8: draining an empty queue is a no-op — `dispatchEvents` returns the
machine unchanged (same active state, same registry, same empty queue),
with no lifecycle call and no event processed, for any fuel (in particular
it does not block waiting for events). -/
theorem drain_empty_noop (env : σ → State σ) (fuel : Nat) (h : Hsm σ)
    (hq : h.events = []) :
    Hsm.dispatchEvents env fuel h = some (h, [], []) := by
  obtain ⟨slf, sts, evs, st⟩ := h
  have hq2 : evs = [] := hq
  subst hq2
  simp [Hsm.dispatchEvents, dispatchLoop]

/-- Witness for C8: a fresh machine with an empty queue is returned
unchanged, even with zero fuel. -/
theorem drain_empty_noop_witness :
    Hsm.dispatchEvents envC4 0 (Hsm.new false) = some (Hsm.new false, [], []) :=
  drain_empty_noop envC4 0 (Hsm.new false) rfl

/-- Counterexample to C9 as stated: in the `envC9` machine nothing was ever
attached with `attachState`, yet `init` settles on the entry-chain target
`true`, so afterwards the active state is neither in the attached set nor
the Hsm itself.  The code never checks the registry, which is pure
bookkeeping. -/
theorem active_state_registry_cex :
    Hsm.init envC9 2 (Hsm.new false) =
      some (Hsm.mk false [] [] true, [.entry false, .exit false, .entry true])
    ∧ ¬((Hsm.mk false [] [] true).state ∈ (Hsm.mk false [] [] true).states
        ∨ (Hsm.mk false [] [] true).state = (Hsm.mk false [] [] true).self) := by
  exact ⟨by decide, by decide⟩

theorem settleLoop_result_closed (env : σ → State σ) (P : σ → Prop)
    (hE : ∀ s t, (env s).entry = some t → P t) :
    ∀ fuel st next r tr, settleLoop env fuel st next = some (r, tr) → P st →
      (∀ t, next = some t → P t) → P r := by
  intro fuel
  induction fuel with
  | zero =>
    intro st next r tr hsl hst hnx
    cases next with
    | none =>
      rw [settleLoop_none] at hsl
      simp at hsl
      exact hsl.1 ▸ hst
    | some nx =>
      by_cases hn : nx = st
      · subst hn
        rw [settleLoop_self] at hsl
        simp at hsl
        exact hsl.1 ▸ hst
      · rw [settleLoop_zero env st nx hn] at hsl
        exact absurd hsl (by simp)
  | succ f ih =>
    intro st next r tr hsl hst hnx
    cases next with
    | none =>
      rw [settleLoop_none] at hsl
      simp at hsl
      exact hsl.1 ▸ hst
    | some nx =>
      by_cases hn : nx = st
      · subst hn
        rw [settleLoop_self] at hsl
        simp at hsl
        exact hsl.1 ▸ hst
      · rw [settleLoop_step env f st nx hn] at hsl
        cases hrec : settleLoop env f nx (env nx).entry with
        | none => rw [hrec] at hsl; exact absurd hsl (by simp)
        | some pr =>
          obtain ⟨r2, tr2⟩ := pr
          rw [hrec] at hsl
          simp at hsl
          have hPr2 : P r2 := ih nx (env nx).entry r2 tr2 hrec (hnx nx rfl)
            (fun t ht => hE nx t ht)
          exact hsl.1 ▸ hPr2

theorem dispatch_event_result_closed (env : σ → State σ) (P : σ → Prop)
    (hH : ∀ s hd e t, hd ∈ (env s).handlers → hd.handler e = some t → P t) :
    ∀ fuel s e res tr, State.dispatch env fuel s (some e) = some (res, tr) →
      ∀ t, res = some t → P t := by
  intro fuel
  induction fuel with
  | zero =>
    intro s e res tr hd t ht
    subst ht
    cases hf : (env s).handlers.find? (fun h => h.matches e) with
    | some hdl =>
      rw [dispatch_found env 0 s e hdl hf] at hd
      simp at hd
      exact hH s hdl e t (List.mem_of_find?_eq_some hf)
        (by simpa [EventHandler.dispatch] using hd.1)
    | none =>
      cases hp : (env s).parent with
      | some p =>
        have hz : State.dispatch env 0 s (some e) = none := by
          rw [State.dispatch.eq_def]
          simp [hf, hp]
        rw [hz] at hd
        exact absurd hd (by simp)
      | none =>
        rw [dispatch_unfound_root env 0 s e hf hp] at hd
        simp at hd
  | succ f ih =>
    intro s e res tr hd t ht
    subst ht
    cases hf : (env s).handlers.find? (fun h => h.matches e) with
    | some hdl =>
      rw [dispatch_found env (f + 1) s e hdl hf] at hd
      simp at hd
      exact hH s hdl e t (List.mem_of_find?_eq_some hf)
        (by simpa [EventHandler.dispatch] using hd.1)
    | none =>
      cases hp : (env s).parent with
      | some p =>
        rw [dispatch_unfound_parent env f s p e hf hp] at hd
        exact ih p e (some t) tr hd t rfl
      | none =>
        rw [dispatch_unfound_root env (f + 1) s e hf hp] at hd
        simp at hd

theorem dispatchLoop_result_closed (env : σ → State σ) (P : σ → Prop)
    (hE : ∀ s t, (env s).entry = some t → P t)
    (hH : ∀ s hd e t, hd ∈ (env s).handlers → hd.handler e = some t → P t) :
    ∀ q fuel st r, dispatchLoop env fuel st q = some r → P st → P r.1 := by
  intro q
  induction q with
  | nil =>
    intro fuel st r h hst
    obtain ⟨st', tr, evs⟩ := r
    simp only [dispatchLoop] at h
    simp at h
    exact h.1 ▸ hst
  | cons ev rest ih =>
    intro fuel st r h hst
    obtain ⟨st', tr, evs⟩ := r
    simp only [dispatchLoop] at h
    split at h
    · exact absurd h (by simp)
    · rename_i next dtr hd
      split at h
      · exact absurd h (by simp)
      · rename_i st2 tr1 hsl
        split at h
        · exact absurd h (by simp)
        · rename_i st3 tr2 evs2 hdl
          have hP2 : P st2 := settleLoop_result_closed env P hE fuel st next st2 tr1 hsl hst
            (fun t ht => dispatch_event_result_closed env P hH fuel st ev next dtr hd t ht)
          have hP3 : P st3 := ih fuel st2 (st3, tr2, evs2) hdl hP2
          simp at h
          exact h.1 ▸ hP3

theorem dispatch_null_result_closed (env : σ → State σ) (P : σ → Prop)
    (hE : ∀ s t, (env s).entry = some t → P t) (fuel : Nat) (s : σ)
    (res : Option σ) (tr : Trace σ)
    (hd : State.dispatch env fuel s none = some (res, tr)) (hs : P s) :
    ∀ t, res = some t → P t := by
  intro t ht
  subst ht
  rw [dispatch_null] at hd
  cases hsl : settleLoop env fuel s (env s).entry with
  | none => rw [hsl] at hd; exact absurd hd (by simp)
  | some pr =>
    obtain ⟨r, tr2⟩ := pr
    rw [hsl] at hd
    simp at hd
    have hPr := settleLoop_result_closed env P hE fuel s (env s).entry r tr2 hsl hs
      (fun u hu => hE s u hu)
    exact hd.1 ▸ hPr

/-- Amended C9: the registry invariant holds under the closure assumption
the code itself never checks — every state returned by an `entry()` call
and every state returned by a registered handler lies in the attached set
or is the Hsm itself.  Under that assumption, the active-state reference is
in the attached set or is the Hsm itself after construction and after each
of `init`, `attachState`, `raiseEvent` and `dispatchEvents`. -/
theorem active_state_registry_invariant (env : σ → State σ) (fuel : Nat) (h : Hsm σ)
    (hE : ∀ s t, (env s).entry = some t → t ∈ h.states ∨ t = h.self)
    (hH : ∀ s hd e t, hd ∈ (env s).handlers → hd.handler e = some t →
        t ∈ h.states ∨ t = h.self)
    (hstate : h.state ∈ h.states ∨ h.state = h.self) :
    ((Hsm.new h.self).state ∈ (Hsm.new h.self).states
      ∨ (Hsm.new h.self).state = (Hsm.new h.self).self)
    ∧ (∀ h' tr, Hsm.init env fuel h = some (h', tr) →
        h'.state ∈ h'.states ∨ h'.state = h'.self)
    ∧ (∀ st, (h.attachState st).state ∈ (h.attachState st).states
        ∨ (h.attachState st).state = (h.attachState st).self)
    ∧ (∀ e, (h.raiseEvent e).state ∈ (h.raiseEvent e).states
        ∨ (h.raiseEvent e).state = (h.raiseEvent e).self)
    ∧ (∀ h' tr evs, Hsm.dispatchEvents env fuel h = some (h', tr, evs) →
        h'.state ∈ h'.states ∨ h'.state = h'.self) := by
  refine ⟨Or.inr rfl, fun h' tr hinit => ?_, fun st => ?_, fun e => ?_,
    fun h' tr evs hde => ?_⟩
  · unfold Hsm.init at hinit
    cases hd : State.dispatch env fuel h.self none with
    | none => rw [hd] at hinit; exact absurd hinit (by simp)
    | some pr =>
      obtain ⟨next, tr0⟩ := pr
      rw [hd] at hinit
      simp at hinit
      obtain ⟨hh, -⟩ := hinit
      subst hh
      cases next with
      | none => exact Or.inr rfl
      | some t =>
        exact dispatch_null_result_closed env (fun t => t ∈ h.states ∨ t = h.self)
          hE fuel h.self (some t) tr0 hd (Or.inr rfl) t rfl
  · rcases hstate with hm | he
    · exact Or.inl (List.mem_append_left _ hm)
    · exact Or.inr he
  · exact hstate
  · unfold Hsm.dispatchEvents at hde
    cases hdl : dispatchLoop env fuel h.state h.events with
    | none => rw [hdl] at hde; exact absurd hde (by simp)
    | some pr =>
      obtain ⟨st2, tr2, evs2⟩ := pr
      rw [hdl] at hde
      simp at hde
      obtain ⟨hh, -, -⟩ := hde
      subst hh
      exact dispatchLoop_result_closed env (fun t => t ∈ h.states ∨ t = h.self)
        hE hH h.events fuel h.state (st2, tr2, evs2) hdl hstate

/-- Witness for the amended C9: in the `envC9` machine with `true` attached
to the registry, after `init` settles on `true` the active state is in the
attached set. -/
theorem active_state_registry_invariant_witness :
    (Hsm.mk false [true] [] true).state ∈ (Hsm.mk false [true] [] true).states
      ∨ (Hsm.mk false [true] [] true).state = (Hsm.mk false [true] [] true).self :=
  (active_state_registry_invariant envC9 2 (Hsm.mk false [true] [] false)
      (by decide)
      (by intro s hd e t hmem hcall; cases s <;> simp [envC9] at hmem)
      (Or.inr rfl)).2.1
    (Hsm.mk false [true] [] true) [.entry false, .exit false, .entry true] (by decide)

end hsm
